import Mathlib

/-!
# Meeting Prep Assistant — verification of the core decision logic

Shallow embedding of the meeting eligibility classifier, the Gmail query
builder, the notification filter, the keyword extractor and the relevance
scorer of the repository (src/tools/calendar_tool.py, src/tools/gmail_tool.py,
src/main.py), together with proofs settling the spec claims.

Modelling conventions:
* Python strings are modelled as lists of Unicode code points (`Str := List ℕ`);
  `enc` converts a Lean string literal into this representation.
* Python's `re` word characters (`\w`) are modelled over ASCII
  (`[0-9A-Za-z_]`), the alphabet actually exercised by the program.
* Python floats are modelled as exact rationals; `round(x, 2)` is modelled by
  `round2` (round to nearest hundredth).  All facts proved here are ones for
  which the exact tie-breaking rule of the float rounding is irrelevant.
* Fallible operations (ISO-timestamp parsing, network calls) are modelled with
  `Option`/`Except`: an uncaught Python exception is an `Except.error`.
-/

namespace MeetingPrep

/-- A Python string: its list of code points. -/
abbrev Str := List Nat

/-- Encode a Lean string literal as a list of code points. -/
def enc (s : String) : Str := s.toList.map Char.toNat

/-- ASCII lower-casing of a single code point (`str.lower`). -/
def lowerCode (c : Nat) : Nat := if 65 ≤ c ∧ c ≤ 90 then c + 32 else c

/-- Model of `str.lower()`. -/
def lowerStr (s : Str) : Str := s.map lowerCode

/-- A `\w` word character: `[0-9A-Za-z_]`. -/
def isWordCode (c : Nat) : Bool :=
  decide ((48 ≤ c ∧ c ≤ 57) ∨ (65 ≤ c ∧ c ≤ 90) ∨ (97 ≤ c ∧ c ≤ 122) ∨ c = 95)

/-- Tokenizer loop: `acc` holds the reversed word run currently being read. -/
def wordsAux (acc : Str) : Str → List Str
  | [] => if acc = [] then [] else [acc.reverse]
  | c :: rest =>
    if isWordCode c then wordsAux (c :: acc) rest
    else if acc = [] then wordsAux [] rest
    else acc.reverse :: wordsAux [] rest

/-- Model of `re.findall` with pattern word-boundary `\w+`: the maximal runs of word characters of `s`. -/
def words (s : Str) : List Str := wordsAux [] s

/-- Model of `sep.join(parts)`. -/
def joinStr (sep : Str) : List Str → Str
  | [] => []
  | [s] => s
  | s :: t :: rest => s ++ sep ++ joinStr sep (t :: rest)

/-- Base stop words of `_extract_keywords` (always excluded). -/
def baseStopWords : List Str :=
  [enc "meeting", enc "sync", enc "call", enc "discussion",
   enc "weekly", enc "monthly", enc "daily", enc "standup", enc "stand-up", enc "stand",
   enc "the", enc "and", enc "or", enc "with", enc "for", enc "about", enc "on", enc "in",
   enc "at", enc "a", enc "an", enc "of", enc "to", enc "from", enc "by", enc "up"]

/-- Additional stop words for search queries (kept for meeting context). -/
def searchStopWords : List Str :=
  [enc "review", enc "update", enc "planning", enc "check-in", enc "checkin"]

/-- The stop-word set used by `_extract_keywords` for a given mode. -/
def stopWords (includeCommonWords : Bool) : List Str :=
  if includeCommonWords then baseStopWords else baseStopWords ++ searchStopWords

/-- The keyword filter of `_extract_keywords`: not a stop word and length > 2. -/
def keywordKeep (includeCommonWords : Bool) (w : Str) : Bool :=
  !(stopWords includeCommonWords).contains w && decide (2 < w.length)

/-- Model of `GmailTool._extract_keywords`: tokenize the lower-cased text into `\w+`
runs, drop stop words and short words, keep the first 4. -/
def extractKeywords (text : Str) (includeCommonWords : Bool) : List Str :=
  ((words (lowerStr text)).filter (keywordKeep includeCommonWords)).take 4

/-- Whitespace for `\S` purposes (`re`): space, tab, newline, CR, VT, FF. -/
def isSpaceCode (c : Nat) : Bool := decide (c = 32 ∨ c = 9 ∨ c = 10 ∨ c = 13 ∨ c = 11 ∨ c = 12)

/-- Does `s` start with literal `http` followed by at least one non-space
character (a match of `http\S+` at the head of `s`)? -/
def httpMatchHead (s : Str) : Bool :=
  match s with
  | 104 :: 116 :: 116 :: 112 :: c :: _ => !isSpaceCode c
  | _ => false

/-- Fuelled scanner for `re.sub(r'http\S+', '', s)`.  Every step consumes at
least one character, so fuel `s.length + 1` never runs out; the fuel only
makes the recursion structural. -/
def subHttpF : Nat → Str → Str
  | 0, _ => []
  | _ + 1, [] => []
  | fuel + 1, c :: rest =>
    if httpMatchHead (c :: rest) then
      subHttpF fuel ((rest.drop 3).dropWhile (fun d => !isSpaceCode d))
    else c :: subHttpF fuel rest

/-- Model of `re.sub` removing every `http\S+` match: each leftmost match is
`http` followed by a maximal nonempty run of non-space characters. -/
def subHttp (s : Str) : Str := subHttpF (s.length + 1) s

/-- The `seen` loop of `_extract_meeting_context_keywords`: keep the first
occurrence of each word. -/
def dedupAux (seen : List Str) : List Str → List Str
  | [] => []
  | s :: rest =>
    if seen.contains s then dedupAux seen rest
    else s :: dedupAux (s :: seen) rest

/-- Order-preserving de-duplication. -/
def dedupStr (l : List Str) : List Str := dedupAux [] l

/-- A parsed `Meeting` record as consumed by `GmailTool` (`meeting['title']`,
`meeting['description']`, `meeting['attendees']`; a missing dict key read via
`.get(k, '')` is modelled as the empty string). -/
structure Meeting where
  title : Str
  description : Str
  attendees : List Str
deriving DecidableEq

/-- Model of `GmailTool._extract_meeting_context_keywords`: keywords of the title plus
keywords of the URL-stripped description, de-duplicated, first 8. -/
def extractMeetingContextKeywords (m : Meeting) : List Str :=
  let titleKeywords := if m.title ≠ [] then extractKeywords m.title true else []
  let descKeywords :=
    if m.description ≠ [] then extractKeywords (subHttp m.description) true else []
  (dedupStr (titleKeywords ++ descKeywords)).take 8

/-- Digit-run scanner: `acc` is the value of the run being read, if any. -/
def digitRunsAux (acc : Option Nat) : Str → List Nat
  | [] => match acc with | some n => [n] | none => []
  | c :: rest =>
    if 48 ≤ c ∧ c ≤ 57 then digitRunsAux (some (acc.getD 0 * 10 + (c - 48))) rest
    else
      match acc with
      | some n => n :: digitRunsAux none rest
      | none => digitRunsAux none rest

/-- Model of `re.findall` for digit runs, each run read as a number
(`int` never fails on such a run). -/
def digitRuns (s : Str) : List Nat := digitRunsAux none s

/-- Python's substring test `needle in hay`. -/
def substrB (needle hay : Str) : Bool := decide (needle <:+: hay)

/-- Model of `GmailTool._is_recent`: heuristic pattern match on the raw `Date` display
string (spec §9 records this as a known fragility; the tiered buckets are the
contract). -/
def isRecent (dateStr : Str) (days : Nat) : Bool :=
  let l := lowerStr dateStr
  if substrB (enc "hour") l || substrB (enc "minute") l ||
      substrB (enc "today") l || substrB (enc "yesterday") l then
    true
  else if substrB (enc "day") l then
    match digitRuns dateStr with
    | [] => false
    | n :: _ => decide (n ≤ days)
  else false

/-- An email record as built by `_get_message_details` and annotated in place
by `_score_emails`.  The five `Option` fields are the dict keys the scorer
adds; `none` models the key being absent. -/
structure Email where
  id : Str
  threadId : Str
  subject : Str
  fromAddr : Str
  toAddr : Str
  date : Str
  body : Str
  snippet : Str
  gmailLink : Str
  relevanceScore : Option ℚ
  customerMatch : Option Bool
  contextMatch : Option Bool
  attendeeMatch : Option Bool
  filterReason : Option Str
deriving DecidableEq

/-- An email candidate fresh from retrieval: no scoring keys present yet. -/
def mkCandidate (id threadId subject fromAddr toAddr date body snippet gmailLink : Str) :
    Email :=
  { id := id, threadId := threadId, subject := subject, fromAddr := fromAddr,
    toAddr := toAddr, date := date, body := body, snippet := snippet,
    gmailLink := gmailLink, relevanceScore := none, customerMatch := none,
    contextMatch := none, attendeeMatch := none, filterReason := none }

/-- Sender substrings of `_is_calendar_notification_email`. -/
def calendarSenders : List Str :=
  [enc "calendar-notification@google.com", enc "no-reply@calendar.google.com",
   enc "noreply@calendar.google.com", enc "calendar@google.com",
   enc "notify@calendar.google.com"]

/-- Subject patterns of `_is_calendar_notification_email`. -/
def calendarSubjectPatterns : List Str :=
  [enc "invitation:", enc "accepted:", enc "declined:", enc "updated:",
   enc "canceled:", enc "cancelled:", enc "response:", enc "has invited you",
   enc "has updated", enc "has accepted", enc "has declined",
   enc "has tentatively accepted", enc "invitation for", enc "accepted invitation",
   enc "declined invitation", enc "event reminder:", enc "reminder:",
   enc "upcoming event"]

/-- Body/snippet content patterns of `_is_calendar_notification_email`. -/
def calendarContentPatterns : List Str :=
  [enc "view your event at", enc "going?", enc "yes, no, maybe?",
   enc "event details", enc "join the meeting",
   enc "add this event to your calendar", enc "calendar invitation",
   enc "meeting invitation", enc "has invited you to", enc "rsvp:",
   enc "accept this invitation"]

/-- Model of `GmailTool._is_calendar_notification_email`. -/
def isCalendarNotificationEmail (email : Email) : Bool :=
  let subject := lowerStr email.subject
  let fromEmail := lowerStr email.fromAddr
  let body := lowerStr email.body
  let snippet := lowerStr email.snippet
  if calendarSenders.any (fun s => substrB s fromEmail) then true
  else if calendarSubjectPatterns.any (fun p => substrB p subject) then true
  else
    let contentToCheck := snippet ++ [32] ++ body.take 500
    let patternMatches :=
      (calendarContentPatterns.filter (fun p => substrB p contentToCheck)).length
    if 2 ≤ patternMatches then true
    else if body.length < 300 &&
        (substrB (enc "calendar.google.com") body || substrB (enc "meet.google.com") body) then
      true
    else false

/-- Python truthiness of an optional string: present and nonempty. -/
def truthyS : Option Str → Bool
  | none => false
  | some s => decide (s ≠ [])

/-- The `customer_name` in effect inside `_score_emails`: the given one if
truthy, else the first dot-label of a truthy `customer_domain`
(`customer_domain.split('.')[0]`), else the original value. -/
def effectiveCustomerName (customerName customerDomain : Option Str) : Option Str :=
  if truthyS customerName then customerName
  else
    match customerDomain with
    | some d => if d ≠ [] then some (d.takeWhile (fun c => decide (c ≠ 46))) else customerName
    | none => customerName

/-- The lower-cased concatenation of subject, a space, and body, as built by the scorer. -/
def emailText (e : Email) : Str := lowerStr (e.subject ++ [32] ++ e.body)

/-- The attendee-overlap test of `_score_emails`: some lower-cased meeting
attendee address is a substring of the email's lower-cased from or to field. -/
def attendeeMatchB (m : Meeting) (e : Email) : Bool :=
  (m.attendees.map lowerStr).any
    (fun a => substrB a (lowerStr e.fromAddr) || substrB a (lowerStr e.toAddr))

/-- The customer-keyword test of `_score_emails`
(`customer_name and customer_name.lower() in email_text`). -/
def customerMatchB (name : Option Str) (text : Str) : Bool :=
  match name with
  | none => false
  | some n => decide (n ≠ []) && substrB (lowerStr n) text

/-- Number of meeting-context keywords found in the email text. -/
def contextCount (kws : List Str) (text : Str) : Nat :=
  (kws.filter (fun kw => substrB kw text)).length

/-- The context test of `_score_emails`: context keywords exist and at least
one occurs in the email text. -/
def contextMatchB (kws : List Str) (text : Str) : Bool :=
  decide (kws ≠ []) && decide (0 < contextCount kws text)

/-- Attendee contribution to the score (weight 0.40). -/
def attendeeContribution (m : Meeting) (e : Email) : ℚ :=
  if attendeeMatchB m e then 0.4 else 0

/-- Customer contribution to the score (weight 0.25). -/
def customerContribution (name : Option Str) (text : Str) : ℚ :=
  if customerMatchB name text then 0.25 else 0

/-- Context contribution to the score
(`0.25 * min(matching_context / len(keywords), 1.0)` when positive). -/
def contextContribution (kws : List Str) (text : Str) : ℚ :=
  if kws ≠ [] ∧ 0 < contextCount kws text then
    0.25 * min ((contextCount kws text : ℚ) / (kws.length : ℚ)) 1
  else 0

/-- Recency contribution to the score (0.10 within 3 days, 0.05 within 7). -/
def recencyContribution (dateStr : Str) : ℚ :=
  if isRecent dateStr 3 then 0.1 else if isRecent dateStr 7 then 0.05 else 0

/-- The penalty condition of `_score_emails`: a customer name is in effect,
there is no attendee match, and not both customer and context match. -/
def penaltyB (name : Option Str) (att cust ctx : Bool) : Bool :=
  truthyS name && !att && !(cust && ctx)

/-- The accumulated score of one email just before `round(score, 2)`,
following the statement order of `_score_emails`: attendee, customer and
context contributions accumulate, the ×0.3 penalty applies to that sum,
and the recency contribution is added afterwards. -/
def preScore (m : Meeting) (customerName customerDomain : Option Str) (e : Email) : ℚ :=
  let name := effectiveCustomerName customerName customerDomain
  let kws := extractMeetingContextKeywords m
  let text := emailText e
  let att := attendeeMatchB m e
  let cust := customerMatchB name text
  let ctx := contextMatchB kws text
  let base := attendeeContribution m e + customerContribution name text +
    contextContribution kws text
  (if penaltyB name att cust ctx then 0.3 * base else base) + recencyContribution e.date

/-- Model of `round(x, 2)` as exact rounding to the nearest hundredth.
(Python rounds the nearest binary double half-to-even; no fact proved here
depends on the tie rule.) -/
def round2 (q : ℚ) : ℚ := ((round (100 * q) : ℤ) : ℚ) / 100

/-- One loop iteration of `_score_emails` on one email: the in-place
annotation of the email dict with the derived keys. -/
def annotateEmail (m : Meeting) (customerName customerDomain : Option Str) (e : Email) :
    Email :=
  let name := effectiveCustomerName customerName customerDomain
  let kws := extractMeetingContextKeywords m
  let text := emailText e
  let att := attendeeMatchB m e
  let cust := customerMatchB name text
  let ctx := contextMatchB kws text
  { e with
    relevanceScore := some (round2 (preScore m customerName customerDomain e)),
    customerMatch := some cust,
    contextMatch := some ctx,
    attendeeMatch := some att,
    filterReason :=
      if penaltyB name att cust ctx then some (enc "Missing meeting context keywords")
      else e.filterReason }

/-- The sort key of `_score_emails` (`x.get('relevance_score', 0)`). -/
def scoreKey (e : Email) : ℚ := e.relevanceScore.getD 0

/-- The descending order used by `scored.sort(key=..., reverse=True)`. -/
def scoreGE (a b : Email) : Prop := scoreKey b ≤ scoreKey a

instance : DecidableRel scoreGE :=
  fun a b => inferInstanceAs (Decidable (scoreKey b ≤ scoreKey a))

instance : IsTotal Email scoreGE :=
  ⟨fun a b => (le_total (scoreKey b) (scoreKey a)).imp id id⟩

instance : IsTrans Email scoreGE :=
  ⟨fun _ _ _ hab hbc => le_trans hbc hab⟩

/-- Model of `GmailTool._score_emails`: annotate every candidate, sort stably by
descending rounded score (Python's `list.sort` is stable; `insertionSort`
with `scoreGE` realizes the same stable descending order), then keep the
candidates scoring at least 0.4.  The annotated list
`emails.map (annotateEmail …)` is also the post-call state of the caller's
candidate list, since the loop mutates the dicts in place. -/
def scoreEmails (emails : List Email) (m : Meeting)
    (customerName customerDomain : Option Str) : List Email :=
  let annotated := emails.map (annotateEmail m customerName customerDomain)
  (annotated.insertionSort scoreGE).filter (fun e => decide ((0.4 : ℚ) ≤ scoreKey e))

/-- Decimal rendering of a natural number (the `{days}` f-string slot). -/
def natToStr (n : Nat) : Str := (Nat.toDigits 10 n).map Char.toNat

/-- Python truthiness of an optional keyword list: present and nonempty. -/
def truthyL : Option (List Str) → Bool
  | none => false
  | some l => decide (l ≠ [])

/-- An OR-group of `subject:"k"` and bare `"k"` terms (code 34 is `"`). -/
def quotedGroup (kws : List Str) : Str :=
  enc "(" ++ joinStr (enc " OR ")
    (kws.flatMap (fun kw => [enc "subject:" ++ [34] ++ kw ++ [34], [34] ++ kw ++ [34]]))
    ++ enc ")"

/-- The `else` arm of the topic chain of `_build_search_query`:
project keywords if truthy, otherwise auto-extracted title keywords. -/
def topicFallback (title : Str) (projectKeywords : Option (List Str)) : List Str :=
  match projectKeywords with
  | some kws =>
    if kws ≠ [] then [quotedGroup kws]
    else (let auto := extractKeywords title false
          if auto ≠ [] then [quotedGroup auto] else [])
  | none =>
    let auto := extractKeywords title false
    if auto ≠ [] then [quotedGroup auto] else []

/-- The topic clause of `_build_search_query`: customer name first, then
project keywords, then auto-extracted title keywords. -/
def topicClause (title : Str) (projectKeywords : Option (List Str))
    (customerName : Option Str) : List Str :=
  match customerName with
  | some n => if n ≠ [] then [quotedGroup [n]] else topicFallback title projectKeywords
  | none => topicFallback title projectKeywords

/-- The attendee identity clause of `_build_search_query`: a from:/to:
OR-group over the first 10 attendees, absent when there are none. -/
def attendeeClause (m : Meeting) : List Str :=
  let attendeeQueries :=
    (m.attendees.take 10).flatMap (fun e => [enc "from:" ++ e, enc "to:" ++ e])
  if attendeeQueries ≠ [] then
    [enc "(" ++ joinStr (enc " OR ") attendeeQueries ++ enc ")"]
  else []

/-- Model of `GmailTool._build_search_query`: the `query_parts` accumulation, joined
with single spaces.  With a truthy `customer_domain` the only identity part is
the domain clause and the topic chain is skipped entirely. -/
def buildSearchQuery (m : Meeting) (days : Nat) (projectKeywords : Option (List Str))
    (customerName customerDomain : Option Str) : Str :=
  let identityAndTopic : List Str :=
    match customerDomain with
    | some d =>
      if d ≠ [] then
        [enc "(" ++ joinStr (enc " OR ") [enc "from:@" ++ d, enc "to:@" ++ d] ++ enc ")"]
      else attendeeClause m ++ topicClause m.title projectKeywords customerName
    | none => attendeeClause m ++ topicClause m.title projectKeywords customerName
  joinStr (enc " ")
    (identityAndTopic ++
     [enc "newer_than:" ++ natToStr days ++ enc "d", enc "-in:spam", enc "-in:trash"])

/-! ## Calendar eligibility classifier (`calendar_tool.py`) -/

/-- The `start`/`end` sub-dict of a raw calendar event: an all-day `date`
and/or a `dateTime`; `none` models an absent key. -/
structure EventTime where
  date : Option Str
  dateTime : Option Str
deriving DecidableEq

/-- One attendee record of a raw calendar event. -/
structure EventAttendee where
  email : Option Str
  isSelf : Bool
  responseStatus : Option Str
deriving DecidableEq

/-- A raw calendar event as consumed by `_should_prepare_meeting`.
`summary`/`description` read through `.get(k, '')` are plain strings. -/
structure CalEvent where
  start : Option EventTime
  endTime : Option EventTime
  status : Option Str
  attendees : List EventAttendee
  summary : Str
  description : Str
deriving DecidableEq

/-- Model of the replace call turning each `Z` into `+00:00`. -/
def replZ (s : Str) : Str := s.flatMap (fun c => if c = 90 then enc "+00:00" else [c])

/-- Is `c` an ASCII digit? -/
def isDigitCode (c : Nat) : Bool := decide (48 ≤ c ∧ c ≤ 57)

/-- Numeric value of two digit code points. -/
def dig2 (a b : Nat) : Nat := (a - 48) * 10 + (b - 48)

/-- Leap-year rule of the proleptic Gregorian calendar. -/
def isLeapYear (y : Nat) : Bool :=
  decide ((y % 4 = 0 ∧ y % 100 ≠ 0) ∨ y % 400 = 0)

/-- Days in a month. -/
def daysInMonth (y m : Nat) : Nat :=
  if m = 2 then (if isLeapYear y then 29 else 28)
  else if m = 4 ∨ m = 6 ∨ m = 9 ∨ m = 11 then 30
  else 31

/-- Day count of a civil date from the epoch 1970-01-01 (valid for `1 ≤ y`). -/
def daysFromCivil (y m d : Nat) : ℤ :=
  let yAdj : Nat := if m ≤ 2 then y - 1 else y
  let era : Nat := yAdj / 400
  let yoe : Nat := yAdj % 400
  let mp : Nat := if 2 < m then m - 3 else m + 9
  let doy : Nat := (153 * mp + 2) / 5 + (d - 1)
  let doe : Nat := yoe * 365 + yoe / 4 - yoe / 100 + doy
  (era : ℤ) * 146097 + (doe : ℤ) - 719468

/-- Parse a trailing UTC offset `±HH:MM` (empty means naive) into minutes. -/
def parseOffset : Str → Option ℤ
  | [] => some 0
  | [s, h1, h2, 58, m1, m2] =>
    if (s = 43 ∨ s = 45) ∧ isDigitCode h1 ∧ isDigitCode h2 ∧
        isDigitCode m1 ∧ isDigitCode m2 ∧ dig2 h1 h2 ≤ 23 ∧ dig2 m1 m2 ≤ 59 then
      some ((if s = 43 then 1 else -1) * ((dig2 h1 h2 : ℤ) * 60 + (dig2 m1 m2 : ℤ)))
    else none
  | _ => none

/-- Model of `datetime.fromisoformat` restricted to the
`YYYY-MM-DDTHH:MM:SS[±HH:MM]` shape produced by the calendar backend,
yielding an instant in seconds (UTC when an offset is present).  Any other
string is a parse failure (Python raises `ValueError`). -/
def parseIso (s : Str) : Option ℤ :=
  match s with
  | y1 :: y2 :: y3 :: y4 :: 45 :: mo1 :: mo2 :: 45 :: d1 :: d2 :: 84 ::
      h1 :: h2 :: 58 :: mi1 :: mi2 :: 58 :: s1 :: s2 :: rest =>
    if isDigitCode y1 ∧ isDigitCode y2 ∧ isDigitCode y3 ∧ isDigitCode y4 ∧
        isDigitCode mo1 ∧ isDigitCode mo2 ∧ isDigitCode d1 ∧ isDigitCode d2 ∧
        isDigitCode h1 ∧ isDigitCode h2 ∧ isDigitCode mi1 ∧ isDigitCode mi2 ∧
        isDigitCode s1 ∧ isDigitCode s2 then
      let y := dig2 y1 y2 * 100 + dig2 y3 y4
      let mo := dig2 mo1 mo2
      let d := dig2 d1 d2
      let h := dig2 h1 h2
      let mi := dig2 mi1 mi2
      let sec := dig2 s1 s2
      if 1 ≤ y ∧ 1 ≤ mo ∧ mo ≤ 12 ∧ 1 ≤ d ∧ d ≤ daysInMonth y mo ∧
          h ≤ 23 ∧ mi ≤ 59 ∧ sec ≤ 59 then
        match parseOffset rest with
        | some off =>
          some ((daysFromCivil y mo d) * 86400 + h * 3600 + mi * 60 + sec - off * 60)
        | none => none
      else none
    else none
  | _ => none

/-- Skip keywords of `_should_prepare_meeting`. -/
def skipKeywords : List Str :=
  [enc "standup", enc "stand-up", enc "lunch", enc "coffee", enc "social",
   enc "birthday", enc "happy hour", enc "team building"]

/-- The checks of `_should_prepare_meeting` after the duration check:
cancelled status, own declined response, skip keywords, attendee count. -/
def shouldPrepareRest (ev : CalEvent) : Bool :=
  if ev.status = some (enc "cancelled") then false
  else
    let myResponse := (ev.attendees.find? (·.isSelf)).bind (·.responseStatus)
    if myResponse = some (enc "declined") then false
    else
      let title := lowerStr ev.summary
      let description := lowerStr ev.description
      if skipKeywords.any (fun kw => substrB kw title || substrB kw description) then false
      else if ev.attendees.length < 2 then false
      else true

/-- Model of `CalendarTool._should_prepare_meeting`.  An `Except.error` is an uncaught
exception escaping the function (Python's `datetime.fromisoformat` raising
`ValueError` on a malformed timestamp). -/
def shouldPrepareMeeting (ev : CalEvent) : Except Unit Bool :=
  if (ev.start.bind (·.date)).isSome then .ok false
  else
    match ev.start.bind (·.dateTime), ev.endTime.bind (·.dateTime) with
    | some s, some e =>
      if s ≠ [] ∧ e ≠ [] then
        match parseIso (replZ s), parseIso (replZ e) with
        | some t1, some t2 =>
          -- the code compares `total_seconds() / 60 < 15`; over the exact
          -- values that is `t2 - t1 < 15 * 60` seconds
          if t2 - t1 < 15 * 60 then .ok false else .ok (shouldPrepareRest ev)
        | _, _ => .error ()
      else .ok (shouldPrepareRest ev)
    | _, _ => .ok (shouldPrepareRest ev)

/-- The second at-sign-separated segment of an address, when it has an at sign (the split indexing in the source). -/
def domainOfAddress (a : Str) : Option Str :=
  if 64 ∈ a then
    some (((a.dropWhile (fun c => decide (c ≠ 64))).tail).takeWhile (fun c => decide (c ≠ 64)))
  else none

/-- Model of `CalendarTool._is_external_meeting`: some attendee's domain is not in the
lower-cased internal-domain list. -/
def isExternalMeeting (internalDomains : List Str) (attendees : List Str) : Bool :=
  attendees.any (fun a =>
    match domainOfAddress a with
    | some dom => !((internalDomains.map lowerStr).contains (lowerStr dom))
    | none => false)

/-- Meeting priority levels of the spec. -/
inductive Priority where
  | HIGH
  | MEDIUM
  | LOW
deriving DecidableEq

/-- Modelled from the spec: the priority computation is absent from `src/`
(`main.py` reads `meeting['priority']`, but no code under `src/` ever writes
that key).  Spec §4.2: `is_client_meeting` = true iff any attendee's email
domain is absent from the internal-domain set (embedded from
`_is_external_meeting`, which is in the source); `priority` = HIGH if client
meeting, else MEDIUM if attendee count ≥ 5, else LOW (modelled from the
spec's words). -/
def classify (internalDomains : List Str) (attendees : List Str) : Bool × Priority :=
  let client := isExternalMeeting internalDomains attendees
  (client, if client then .HIGH else if 5 ≤ attendees.length then .MEDIUM else .LOW)

/-! ## Retrieval pipeline (`search_relevant_emails`) -/

/-- A raw Gmail message as consumed by `_get_message_details`: thread id,
header list, snippet, and the body text produced by the (external) MIME/base64
decode `_get_email_body`. -/
structure RawMessage where
  threadId : Str
  headers : List (Str × Str)
  snippet : Str
  bodyText : Str

/-- The two Gmail collaborator calls the pipeline issues; `Except.error`
models the call raising an exception. -/
structure GmailSvc where
  listMessages : Str → Nat → Except Unit (List Str)
  getMessage : Str → Except Unit RawMessage

/-- Model of `GmailTool._get_header`: first case-insensitive header match, else empty. -/
def getHeader (headers : List (Str × Str)) (name : Str) : Str :=
  match headers.find? (fun h => lowerStr h.1 = lowerStr name) with
  | some h => h.2
  | none => []

/-- The body truncation of `_get_message_details`. -/
def truncateBody (b : Str) : Str :=
  if 2000 < b.length then b.take 2000 ++ enc "\n...[email truncated for length]" else b

/-- Model of `GmailTool._get_message_details`: fetch and assemble one candidate;
its own `try/except` turns any fetch exception into `None`. -/
def getMessageDetails (svc : GmailSvc) (messageId : Str) : Option Email :=
  match svc.getMessage messageId with
  | .error _ => none
  | .ok msg =>
    some (mkCandidate messageId msg.threadId
      (getHeader msg.headers (enc "Subject"))
      (getHeader msg.headers (enc "From"))
      (getHeader msg.headers (enc "To"))
      (getHeader msg.headers (enc "Date"))
      (truncateBody msg.bodyText)
      msg.snippet
      (enc "https://mail.google.com/mail/u/0/#inbox/" ++ messageId))

/-- The candidate-collection loop of `search_relevant_emails`: fetch each id,
skip fetch failures and calendar notifications. -/
def collectThreads (svc : GmailSvc) : List Str → List Email
  | [] => []
  | messageId :: rest =>
    match getMessageDetails svc messageId with
    | none => collectThreads svc rest
    | some e =>
      if isCalendarNotificationEmail e then collectThreads svc rest
      else e :: collectThreads svc rest

/-- The external generative classifier: given the (≤ 50) batch and the
meeting, it answers with the 1-based indices judged relevant, or fails. -/
abbrev LlmFilter := List Email → Meeting → Except Unit (List Nat)

/-- Model of `GmailTool._filter_emails_with_llm`: batch of at most 50; on classifier
failure fall back to all emails; otherwise keep the in-range indices. -/
def filterEmailsWithLlm (llm : LlmFilter) (emails : List Email) (m : Meeting) :
    List Email :=
  if emails = [] then []
  else
    let emailsToFilter := emails.take 50
    match llm emailsToFilter m with
    | .error _ => emails
    | .ok nums =>
      nums.filterMap (fun n =>
        if 1 ≤ n ∧ n ≤ emailsToFilter.length then emailsToFilter[n - 1]? else none)

/-- Model of `GmailTool.search_relevant_emails`: build the query, list candidate ids
(the surrounding `try/except` turns a listing exception into `[]`), collect
details, filter notifications, run the optional classifier, score, and keep
the top `max_results`. -/
def searchRelevantEmails (svc : GmailSvc) (llm : LlmFilter) (m : Meeting) (days : Nat)
    (maxResults : Nat) (projectKeywords : Option (List Str))
    (customerName customerDomain : Option Str) : List Email :=
  let query := buildSearchQuery m days projectKeywords customerName customerDomain
  match svc.listMessages query (maxResults * 2) with
  | .error _ => []
  | .ok messages =>
    if messages = [] then []
    else
      let emailThreads := collectThreads svc messages
      let emailThreads :=
        if emailThreads ≠ [] then filterEmailsWithLlm llm emailThreads m else emailThreads
      (scoreEmails emailThreads m customerName customerDomain).take maxResults

/-! ## Concrete inputs used by counterexamples and witnesses -/

/-- A meeting whose title and description yield no context keywords. -/
def exMeetingNoContext : Meeting := ⟨enc "", enc "", [enc "zed@other.com"]⟩

/-- A candidate that mentions the customer but has no attendee or context
match, and is 2 days old. -/
def exEmailPenalty : Email :=
  mkCandidate (enc "1") (enc "t1") (enc "Acme invoice") (enc "alice@acme.com")
    (enc "me@co.com") (enc "2 days ago") (enc "please pay") (enc "") (enc "")

/-- A meeting with one attendee, used by the pipeline and scorer examples. -/
def exMeetingQ4 : Meeting := ⟨enc "Q4 Review", enc "", [enc "bob@acme.com"]⟩

/-- A candidate sent by a meeting attendee. -/
def exEmailFromAttendee : Email :=
  mkCandidate (enc "2") (enc "t2") (enc "Hello Project") (enc "bob@acme.com")
    (enc "me@co.com") (enc "") (enc "long discussion about the project") (enc "")
    (enc "")

/-- A candidate from an attendee whose text also mentions the customer. -/
def exEmailAttendeeCustomer : Email :=
  mkCandidate (enc "3") (enc "t3") (enc "Acme roadmap") (enc "bob@acme.com")
    (enc "me@co.com") (enc "") (enc "notes about acme") (enc "") (enc "")

/-- A 10-minute event (too short to prepare for). -/
def exEventShort : CalEvent :=
  { start := some ⟨none, some (enc "2025-03-05T10:00:00Z")⟩,
    endTime := some ⟨none, some (enc "2025-03-05T10:10:00Z")⟩,
    status := some (enc "confirmed"),
    attendees :=
      [⟨some (enc "a@co.com"), false, some (enc "accepted")⟩,
       ⟨some (enc "b@co.com"), true, some (enc "accepted")⟩],
    summary := enc "Budget deep dive",
    description := enc "" }

/-- An event whose start `dateTime` is not a valid ISO timestamp. -/
def exEventMalformed : CalEvent :=
  { start := some ⟨none, some (enc "not-a-timestamp")⟩,
    endTime := some ⟨none, some (enc "2025-03-05T11:00:00Z")⟩,
    status := some (enc "confirmed"),
    attendees :=
      [⟨some (enc "a@co.com"), false, some (enc "accepted")⟩,
       ⟨some (enc "b@co.com"), true, some (enc "accepted")⟩],
    summary := enc "Budget deep dive",
    description := enc "" }

/-- The raw message behind the successful fetch of the pipeline example. -/
def exRawMessage : RawMessage :=
  ⟨enc "t2",
   [(enc "Subject", enc "Hello Project"), (enc "From", enc "bob@acme.com"),
    (enc "To", enc "me@co.com"), (enc "Date", enc "")],
   enc "", enc "long discussion about the project"⟩

/-- A service whose listing succeeds with two ids and whose detail fetch
fails on the first id only. -/
def exSvcPartialFail : GmailSvc :=
  { listMessages := fun _ _ => .ok [enc "m1", enc "m2"],
    getMessage := fun messageId =>
      if messageId = enc "m1" then .error () else .ok exRawMessage }

/-- A classifier stub that always fails (the pipeline must fall back). -/
def exLlmFail : LlmFilter := fun _ _ => .error ()

/-- A service whose listing call itself fails. -/
def exSvcListFail : GmailSvc :=
  { listMessages := fun _ _ => .error (), getMessage := fun _ => .error () }

/-- The candidate assembled from `exRawMessage` for message id `m2`. -/
def exEmailFetched : Email :=
  mkCandidate (enc "m2") (enc "t2") (enc "Hello Project") (enc "bob@acme.com")
    (enc "me@co.com") (enc "") (enc "long discussion about the project") (enc "")
    (enc "https://mail.google.com/mail/u/0/#inbox/" ++ enc "m2")

/-! ## Claims -/

/-- C2: for every meeting that passes classification, priority is HIGH iff
the meeting is a client meeting (some attendee's domain is outside the
internal-domain set); otherwise MEDIUM when it has at least 5 attendees and
LOW when fewer. -/
theorem classify_priority_spec (internalDomains attendees : List Str) :
    ((classify internalDomains attendees).2 = Priority.HIGH ↔
      (classify internalDomains attendees).1 = true) ∧
    ((classify internalDomains attendees).1 = false →
      ((classify internalDomains attendees).2 = Priority.MEDIUM ↔ 5 ≤ attendees.length) ∧
      ((classify internalDomains attendees).2 = Priority.LOW ↔ attendees.length < 5)) := by
  unfold classify
  by_cases h : isExternalMeeting internalDomains attendees
  · simp [h]
  · by_cases h5 : 5 ≤ attendees.length
    · simp [h, h5]
      try omega
    · simp [h, h5]
      try omega

/-- Witness for C2: an internal-only two-person meeting is not a client
meeting and gets LOW priority. -/
theorem classify_priority_spec_witness :
    (classify [enc "co.com"] [enc "me@co.com", enc "ed@co.com"]).1 = false ∧
    (classify [enc "co.com"] [enc "me@co.com", enc "ed@co.com"]).2 = Priority.LOW := by
  have h :=
    (classify_priority_spec [enc "co.com"] [enc "me@co.com", enc "ed@co.com"]).2
      (by decide)
  exact ⟨by decide, h.2.mpr (by decide)⟩

/-- C6 (code bug): on an event whose start `dateTime` is malformed, the
eligibility check raises (`Except.error`) instead of returning false. -/
theorem shouldPrepare_malformed_raises :
    shouldPrepareMeeting exEventMalformed = .error () := by rfl

/-- C7 counterexample: the scorer's per-email loop step changes the candidate
record it was given (it writes the derived keys onto the same dict), so the
input record after scoring differs from the record before. -/
theorem scorer_mutates_input :
    annotateEmail exMeetingNoContext none none exEmailPenalty ≠ exEmailPenalty := by
  decide

/-- C7 amended: the scorer annotates the candidate dicts in place with the
derived keys (`relevance_score`, `customer_match`, `context_match`,
`attendee_match`, and possibly `filter_reason`) but never changes any
pre-existing EmailCandidate field: id, thread id, subject, from, to, date,
body, snippet and permalink are all unchanged. -/
theorem scorer_preserves_identity (m : Meeting) (cn cd : Option Str) (e : Email) :
    (annotateEmail m cn cd e).id = e.id ∧
    (annotateEmail m cn cd e).threadId = e.threadId ∧
    (annotateEmail m cn cd e).subject = e.subject ∧
    (annotateEmail m cn cd e).fromAddr = e.fromAddr ∧
    (annotateEmail m cn cd e).toAddr = e.toAddr ∧
    (annotateEmail m cn cd e).date = e.date ∧
    (annotateEmail m cn cd e).body = e.body ∧
    (annotateEmail m cn cd e).snippet = e.snippet ∧
    (annotateEmail m cn cd e).gmailLink = e.gmailLink ∧
    (annotateEmail m cn cd e).relevanceScore.isSome ∧
    (annotateEmail m cn cd e).attendeeMatch.isSome ∧
    (annotateEmail m cn cd e).customerMatch.isSome ∧
    (annotateEmail m cn cd e).contextMatch.isSome := by
  unfold annotateEmail
  refine ⟨rfl, rfl, rfl, rfl, rfl, rfl, rfl, rfl, rfl, rfl, rfl, rfl, rfl⟩

/-- C4: `should_prepare` returns false on every all-day event, and on every
event whose start and end timestamps are both present and parse to instants
less than 15 minutes apart — before any attendee or keyword check is
consulted. -/
theorem shouldPrepare_allday_short (ev : CalEvent) :
    ((ev.start.bind (·.date)).isSome → shouldPrepareMeeting ev = .ok false) ∧
    (∀ s e t1 t2, ev.start.bind (·.dateTime) = some s →
      ev.endTime.bind (·.dateTime) = some e → s ≠ [] → e ≠ [] →
      parseIso (replZ s) = some t1 → parseIso (replZ e) = some t2 →
      t2 - t1 < 15 * 60 → shouldPrepareMeeting ev = .ok false) := by
  constructor
  · intro h
    unfold shouldPrepareMeeting
    simp [h]
  · intro s e t1 t2 hs he hsne hene hp1 hp2 hlt
    unfold shouldPrepareMeeting
    by_cases hd : (ev.start.bind (·.date)).isSome
    · simp [hd]
    · have hlt' : t2 - t1 < 900 := by omega
      simp only [hd, if_false]
      rw [hs, he]
      simp [hsne, hene, hp1, hp2, hlt']

/-- Witness for C4: a confirmed 10-minute meeting with two attendees and an
innocuous title is rejected. -/
theorem shouldPrepare_allday_short_witness :
    shouldPrepareMeeting exEventShort = .ok false := by
  refine (shouldPrepare_allday_short exEventShort).2
    (enc "2025-03-05T10:00:00Z") (enc "2025-03-05T10:10:00Z")
    1741168800 1741169400 rfl rfl (by decide) (by decide) (by decide) (by decide)
    (by decide)

/-- Helper: `sep.join` on a list with a nonempty tail peels its head. -/
theorem joinStr_cons (sep a : Str) (l : List Str) (h : l ≠ []) :
    joinStr sep (a :: l) = a ++ sep ++ joinStr sep l := by
  cases l with
  | nil => exact absurd rfl h
  | cons b t => rfl

/-- Helper: the head of a joined nonempty list, with one separator, is a
prefix of the join. -/
theorem joinStr_head_starts (sep a : Str) (l : List Str) (h : l ≠ []) :
    a ++ sep <+: joinStr sep (a :: l) := by
  rw [joinStr_cons sep a l h]
  exact ⟨joinStr sep l, by simp [List.append_assoc]⟩

/-- C5: with a `customer_domain`, the query is exactly the domain identity
clause followed by the recency and exclusion clauses (no topic clause, no
attendee clause); without one, the identity clause is the from:/to: OR-group
over the first 10 attendees. -/
theorem buildQuery_domain_exact (m : Meeting) (days : Nat) (pk : Option (List Str))
    (cn : Option Str) (d : Str) (hd : d ≠ []) :
    buildSearchQuery m days pk cn (some d) =
      enc "(" ++ enc "from:@" ++ d ++ enc " OR " ++ enc "to:@" ++ d ++ enc ")" ++
        enc " " ++ enc "newer_than:" ++ natToStr days ++ enc "d" ++ enc " " ++
        enc "-in:spam" ++ enc " " ++ enc "-in:trash" ∧
    (m.attendees ≠ [] →
      (enc "(" ++ joinStr (enc " OR ")
        ((m.attendees.take 10).flatMap (fun a => [enc "from:" ++ a, enc "to:" ++ a])) ++
        enc ")" ++ enc " ") <+: buildSearchQuery m days pk cn none) := by
  constructor
  · have ht : truthyS (some d) = true := by simp [truthyS, hd]
    simp [buildSearchQuery, hd, ht, joinStr, List.append_assoc]
  · intro hatt
    have hq : (m.attendees.take 10).flatMap
        (fun a => [enc "from:" ++ a, enc "to:" ++ a]) ≠ [] := by
      cases h : m.attendees with
      | nil => exact absurd h hatt
      | cons a as => simp [h]
    have hac : attendeeClause m =
        [enc "(" ++ joinStr (enc " OR ")
          ((m.attendees.take 10).flatMap (fun a => [enc "from:" ++ a, enc "to:" ++ a])) ++
          enc ")"] := by
      simp [attendeeClause, hq]
    simp only [buildSearchQuery, hac, List.cons_append, List.nil_append]
    have hpre := joinStr_head_starts (enc " ")
      (enc "(" ++ joinStr (enc " OR ")
        ((m.attendees.take 10).flatMap (fun a => [enc "from:" ++ a, enc "to:" ++ a])) ++
        enc ")")
      (topicClause m.title pk cn ++
        [enc "newer_than:" ++ natToStr days ++ enc "d", enc "-in:spam", enc "-in:trash"])
      (by simp)
    simpa [List.append_assoc] using hpre

/-- C1 counterexample: an email for which the penalty fires yet the resulting
accumulated score is not 0.3 times the sum of the four contributions — the
code multiplies before adding the recency contribution, so the score is
0.3·0.25 + 0.1 = 7/40, not 0.3·(0.25 + 0.1) = 21/200. -/
theorem penalty_excludes_recency_cex :
    penaltyB (effectiveCustomerName (some (enc "Acme")) none)
        (attendeeMatchB exMeetingNoContext exEmailPenalty)
        (customerMatchB (effectiveCustomerName (some (enc "Acme")) none)
          (emailText exEmailPenalty))
        (contextMatchB (extractMeetingContextKeywords exMeetingNoContext)
          (emailText exEmailPenalty)) = true ∧
    preScore exMeetingNoContext (some (enc "Acme")) none exEmailPenalty = 7/40 ∧
    0.3 * (attendeeContribution exMeetingNoContext exEmailPenalty +
        customerContribution (effectiveCustomerName (some (enc "Acme")) none)
          (emailText exEmailPenalty) +
        contextContribution (extractMeetingContextKeywords exMeetingNoContext)
          (emailText exEmailPenalty) +
        recencyContribution exEmailPenalty.date) = 21/200 ∧
    (7 : ℚ)/40 ≠ 21/200 := by
  have hp : penaltyB (effectiveCustomerName (some (enc "Acme")) none)
      (attendeeMatchB exMeetingNoContext exEmailPenalty)
      (customerMatchB (effectiveCustomerName (some (enc "Acme")) none)
        (emailText exEmailPenalty))
      (contextMatchB (extractMeetingContextKeywords exMeetingNoContext)
        (emailText exEmailPenalty)) = true := by decide
  have hatt : attendeeMatchB exMeetingNoContext exEmailPenalty = false := by decide
  have hcust : customerMatchB (effectiveCustomerName (some (enc "Acme")) none)
      (emailText exEmailPenalty) = true := by decide
  have hkws : extractMeetingContextKeywords exMeetingNoContext = [] := by decide
  have hdate : exEmailPenalty.date = enc "2 days ago" := by decide
  have hrec3 : isRecent (enc "2 days ago") 3 = true := by decide
  have htr : truthyS (effectiveCustomerName (some (enc "Acme")) none) = true := by decide
  have hctxF : contextMatchB [] (emailText exEmailPenalty) = false := by decide
  refine ⟨hp, ?_, ?_, by norm_num⟩
  · simp only [preScore, attendeeContribution, customerContribution,
      contextContribution, recencyContribution, penaltyB, hatt, hcust, hkws, hdate,
      hrec3, hctxF, htr, Bool.not_false, Bool.and_true, Bool.true_and, Bool.and_false,
      Bool.not_true, if_true, if_false, ne_eq, not_true_eq_false, false_and,
      Bool.false_eq_true, ite_true, ite_false]
    norm_num
  · simp only [attendeeContribution, customerContribution, contextContribution,
      recencyContribution, hatt, hcust, hkws, hdate, hrec3, ne_eq, not_true_eq_false,
      false_and, Bool.false_eq_true, if_true, if_false, ite_true, ite_false]
    norm_num

/-- C1 amended: when a customer name is in effect, there is no attendee
match, and not both customer and context match, the sum of the attendee,
customer and context contributions is multiplied by 0.3, the recency
contribution is added unpenalized afterwards, and a `filter_reason` is
attached. -/
theorem penalty_applies_before_recency (m : Meeting) (cn cd : Option Str) (e : Email)
    (hname : truthyS (effectiveCustomerName cn cd) = true)
    (hatt : attendeeMatchB m e = false)
    (hcc : ¬(customerMatchB (effectiveCustomerName cn cd) (emailText e) = true ∧
      contextMatchB (extractMeetingContextKeywords m) (emailText e) = true)) :
    preScore m cn cd e =
      0.3 * (attendeeContribution m e +
        customerContribution (effectiveCustomerName cn cd) (emailText e) +
        contextContribution (extractMeetingContextKeywords m) (emailText e)) +
      recencyContribution e.date ∧
    (annotateEmail m cn cd e).filterReason =
      some (enc "Missing meeting context keywords") := by
  have hpen : penaltyB (effectiveCustomerName cn cd) (attendeeMatchB m e)
      (customerMatchB (effectiveCustomerName cn cd) (emailText e))
      (contextMatchB (extractMeetingContextKeywords m) (emailText e)) = true := by
    unfold penaltyB
    rw [hname, hatt]
    cases hc : customerMatchB (effectiveCustomerName cn cd) (emailText e) <;>
      cases hx : contextMatchB (extractMeetingContextKeywords m) (emailText e) <;>
        simp_all
  constructor
  · simp only [preScore, hpen, if_pos]
  · simp only [annotateEmail, hpen, if_pos]

/-- Witness for C1: the amended penalty equation evaluated on the concrete
penalized email. -/
theorem penalty_applies_before_recency_witness :
    preScore exMeetingNoContext (some (enc "Acme")) none exEmailPenalty =
      0.3 * (attendeeContribution exMeetingNoContext exEmailPenalty +
        customerContribution (effectiveCustomerName (some (enc "Acme")) none)
          (emailText exEmailPenalty) +
        contextContribution (extractMeetingContextKeywords exMeetingNoContext)
          (emailText exEmailPenalty)) +
      recencyContribution exEmailPenalty.date ∧
    (annotateEmail exMeetingNoContext (some (enc "Acme")) none exEmailPenalty).filterReason =
      some (enc "Missing meeting context keywords") :=
  penalty_applies_before_recency exMeetingNoContext (some (enc "Acme")) none exEmailPenalty
    (by decide) (by decide) (by decide)

/-- Witness for C5: concrete query strings for domain `acme.com` and for the
attendee fallback. -/
theorem buildQuery_domain_exact_witness :
    buildSearchQuery exMeetingQ4 7 none none (some (enc "acme.com")) =
      enc "(from:@acme.com OR to:@acme.com) newer_than:7d -in:spam -in:trash" ∧
    enc "(from:bob@acme.com OR to:bob@acme.com) " <+:
      buildSearchQuery exMeetingQ4 7 none none none := by
  have h := buildQuery_domain_exact exMeetingQ4 7 none none (enc "acme.com") (by decide)
  constructor
  · rw [h.1]
    decide
  · have h2 := h.2 (by decide)
    have heq : enc "(" ++ joinStr (enc " OR ")
        ((exMeetingQ4.attendees.take 10).flatMap
          (fun a => [enc "from:" ++ a, enc "to:" ++ a])) ++
        enc ")" ++ enc " " = enc "(from:bob@acme.com OR to:bob@acme.com) " := by decide
    rwa [heq] at h2

/-- C8 amended: a failing retrieval (listing) call makes the pipeline return
the empty list; a failing per-candidate detail fetch only drops that
candidate from the collected set — the rest of the meeting's candidates
survive. -/
theorem pipeline_failure_containment :
    (∀ (svc : GmailSvc) (llm : LlmFilter) (m : Meeting) (days maxResults : Nat)
      (pk : Option (List Str)) (cn cd : Option Str),
      svc.listMessages (buildSearchQuery m days pk cn cd) (maxResults * 2) = .error () →
      searchRelevantEmails svc llm m days maxResults pk cn cd = []) ∧
    (∀ (svc : GmailSvc) (badId : Str) (l1 l2 : List Str),
      svc.getMessage badId = .error () →
      collectThreads svc (l1 ++ badId :: l2) = collectThreads svc (l1 ++ l2)) := by
  constructor
  · intro svc llm m days maxResults pk cn cd h
    unfold searchRelevantEmails
    simp only [h]
  · intro svc badId l1 l2 h
    induction l1 with
    | nil =>
      simp only [List.nil_append]
      conv_lhs => unfold collectThreads getMessageDetails
      rw [h]
    | cons a t ih =>
      simp only [List.cons_append] at ih ⊢
      cases hga : getMessageDetails svc a with
      | none => simp [collectThreads, hga, ih]
      | some e => simp [collectThreads, hga, ih]

/-- Witness for C8: the amended containment at a concrete failing service. -/
theorem pipeline_failure_containment_witness :
    searchRelevantEmails exSvcListFail exLlmFail exMeetingQ4 7 10 none none none = [] ∧
    collectThreads exSvcPartialFail (enc "m1" :: [enc "m2"]) =
      collectThreads exSvcPartialFail [enc "m2"] := by
  constructor
  · exact pipeline_failure_containment.1 exSvcListFail exLlmFail exMeetingQ4 7 10
      none none none rfl
  · exact pipeline_failure_containment.2 exSvcPartialFail (enc "m1") [] [enc "m2"] rfl

/-- Helper: scoring a single candidate keeps it iff its rounded score reaches
the 0.4 threshold. -/
theorem scoreEmails_singleton (e : Email) (m : Meeting) (cn cd : Option Str) :
    scoreEmails [e] m cn cd =
      if (0.4 : ℚ) ≤ scoreKey (annotateEmail m cn cd e) then [annotateEmail m cn cd e]
      else [] := by
  simp only [scoreEmails, List.map, List.insertionSort, List.orderedInsert, List.filter]
  by_cases h : (0.4 : ℚ) ≤ scoreKey (annotateEmail m cn cd e) <;> simp [h]

/-- C8 counterexample: the detail fetch of candidate `m1` fails, yet the
pipeline returns the (nonempty) ranked list built from the surviving
candidate `m2` — not the empty list. -/
theorem pipeline_detail_failure_cex :
    exSvcPartialFail.getMessage (enc "m1") = .error () ∧
    searchRelevantEmails exSvcPartialFail exLlmFail exMeetingQ4 7 10 none none none =
      [annotateEmail exMeetingQ4 none none exEmailFetched] := by
  refine ⟨rfl, ?_⟩
  have hlist : exSvcPartialFail.listMessages
      (buildSearchQuery exMeetingQ4 7 none none none) (10 * 2) =
      .ok [enc "m1", enc "m2"] := rfl
  have hct : collectThreads exSvcPartialFail [enc "m1", enc "m2"] = [exEmailFetched] := by
    decide
  have hllm : filterEmailsWithLlm exLlmFail [exEmailFetched] exMeetingQ4 =
      [exEmailFetched] := rfl
  have hsk : scoreKey (annotateEmail exMeetingQ4 none none exEmailFetched) = 2/5 := by
    have hattT : attendeeMatchB exMeetingQ4 exEmailFetched = true := by decide
    have hcustF : customerMatchB (effectiveCustomerName none none)
        (emailText exEmailFetched) = false := by decide
    have hkws : extractMeetingContextKeywords exMeetingQ4 = [enc "review"] := by decide
    have hcount : contextCount [enc "review"] (emailText exEmailFetched) = 0 := by decide
    have hdate : exEmailFetched.date = [] := by decide
    have hrecF3 : isRecent [] 3 = false := by decide
    have hrecF7 : isRecent [] 7 = false := by decide
    have hpenF : penaltyB (effectiveCustomerName none none) true false
        (contextMatchB [enc "review"] (emailText exEmailFetched)) = false := by decide
    simp only [scoreKey, annotateEmail, preScore, attendeeContribution,
      customerContribution, contextContribution, recencyContribution, hattT, hcustF,
      hkws, hcount, hdate, hrecF3, hrecF7, hpenF, if_true, if_false, ite_true,
      ite_false, Option.getD_some, Bool.false_eq_true, lt_self_iff_false, and_false,
      ne_eq]
    norm_num [round2, round_eq]
  unfold searchRelevantEmails
  simp only [hlist, hct, hllm]
  rw [if_neg (by simp), ite_self]
  rw [scoreEmails_singleton, hsk, if_pos (by norm_num)]
  rfl

/-- Helper: exact rounding to hundredths is monotone. -/
theorem round2_mono {a b : ℚ} (h : a ≤ b) : round2 a ≤ round2 b := by
  unfold round2
  have h2 : round (100 * a) ≤ round (100 * b) := by
    rw [round_eq, round_eq]
    exact Int.floor_le_floor (by linarith)
  exact div_le_div_of_nonneg_right (by exact_mod_cast h2) (by norm_num)

/-- Helper: the attendee contribution is 0 or 0.4. -/
theorem attendeeContribution_bounds (m : Meeting) (e : Email) :
    0 ≤ attendeeContribution m e ∧ attendeeContribution m e ≤ 0.4 := by
  unfold attendeeContribution
  split <;> norm_num

/-- Helper: the customer contribution is 0 or 0.25. -/
theorem customerContribution_bounds (name : Option Str) (text : Str) :
    0 ≤ customerContribution name text ∧ customerContribution name text ≤ 0.25 := by
  unfold customerContribution
  split <;> norm_num

/-- Helper: the context contribution lies in [0, 0.25]. -/
theorem contextContribution_bounds (kws : List Str) (text : Str) :
    0 ≤ contextContribution kws text ∧ contextContribution kws text ≤ 0.25 := by
  unfold contextContribution
  split
  · constructor
    · apply mul_nonneg (by norm_num)
      exact le_min (div_nonneg (by positivity) (by positivity)) (by norm_num)
    · have h1 : min ((contextCount kws text : ℚ) / (kws.length : ℚ)) 1 ≤ 1 :=
        min_le_right _ _
      nlinarith
  · norm_num

/-- Helper: the recency contribution lies in [0, 0.1]. -/
theorem recencyContribution_bounds (dateStr : Str) :
    0 ≤ recencyContribution dateStr ∧ recencyContribution dateStr ≤ 0.1 := by
  unfold recencyContribution
  split
  · norm_num
  · split <;> norm_num

/-- Helper: the accumulated pre-round score never exceeds 1. -/
theorem preScore_le_one (m : Meeting) (cn cd : Option Str) (e : Email) :
    preScore m cn cd e ≤ 1 := by
  have ha := attendeeContribution_bounds m e
  have hc := customerContribution_bounds (effectiveCustomerName cn cd) (emailText e)
  have hx := contextContribution_bounds (extractMeetingContextKeywords m) (emailText e)
  have hr := recencyContribution_bounds e.date
  simp only [preScore]
  split
  · linarith [ha.1, ha.2, hc.1, hc.2, hx.1, hx.2, hr.1, hr.2]
  · linarith [ha.2, hc.2, hx.2, hr.2]

/-- C10: when a customer name is in effect, every email surviving the 0.4
threshold has an attendee match or both the customer and context matches: a
penalized email scores at most 0.3·0.5 + 0.1 = 0.25 before rounding, which
rounds to at most 0.25 < 0.4. -/
theorem penalized_never_reaches_threshold (emails : List Email) (m : Meeting)
    (cn cd : Option Str) (hname : truthyS (effectiveCustomerName cn cd) = true) :
    ∀ e ∈ scoreEmails emails m cn cd,
      e.attendeeMatch = some true ∨
        (e.customerMatch = some true ∧ e.contextMatch = some true) := by
  intro e he
  unfold scoreEmails at he
  have h1 := List.mem_filter.mp he
  have h2 : e ∈ emails.map (annotateEmail m cn cd) :=
    (List.mem_insertionSort scoreGE).mp h1.1
  obtain ⟨e0, _, rfl⟩ := List.mem_map.mp h2
  have hthr : (0.4 : ℚ) ≤ scoreKey (annotateEmail m cn cd e0) :=
    of_decide_eq_true h1.2
  by_contra hcon
  rw [not_or] at hcon
  obtain ⟨hattne, hccne⟩ := hcon
  have hfa : (annotateEmail m cn cd e0).attendeeMatch = some (attendeeMatchB m e0) := rfl
  have hfc : (annotateEmail m cn cd e0).customerMatch =
      some (customerMatchB (effectiveCustomerName cn cd) (emailText e0)) := rfl
  have hfx : (annotateEmail m cn cd e0).contextMatch =
      some (contextMatchB (extractMeetingContextKeywords m) (emailText e0)) := rfl
  have hA : attendeeMatchB m e0 = false := by
    cases hv : attendeeMatchB m e0
    · rfl
    · exact absurd (hfa.trans (by rw [hv])) hattne
  have hCC : ¬(customerMatchB (effectiveCustomerName cn cd) (emailText e0) = true ∧
      contextMatchB (extractMeetingContextKeywords m) (emailText e0) = true) := by
    intro ⟨hcu, hcx⟩
    exact hccne ⟨hfc.trans (by rw [hcu]), hfx.trans (by rw [hcx])⟩
  have hpen : penaltyB (effectiveCustomerName cn cd) (attendeeMatchB m e0)
      (customerMatchB (effectiveCustomerName cn cd) (emailText e0))
      (contextMatchB (extractMeetingContextKeywords m) (emailText e0)) = true := by
    unfold penaltyB
    rw [hname, hA]
    cases hcu : customerMatchB (effectiveCustomerName cn cd) (emailText e0) <;>
      cases hcx : contextMatchB (extractMeetingContextKeywords m) (emailText e0) <;>
        simp_all
  have haC : attendeeContribution m e0 = 0 := by
    simp [attendeeContribution, hA]
  have hpre : preScore m cn cd e0 ≤ 0.25 := by
    have hc := customerContribution_bounds (effectiveCustomerName cn cd) (emailText e0)
    have hx := contextContribution_bounds (extractMeetingContextKeywords m) (emailText e0)
    have hr := recencyContribution_bounds e0.date
    simp only [preScore]
    rw [if_pos hpen, haC]
    linarith [hc.1, hc.2, hx.1, hx.2, hr.1, hr.2]
  have hkey : scoreKey (annotateEmail m cn cd e0) = round2 (preScore m cn cd e0) := rfl
  have hub : round2 (preScore m cn cd e0) ≤ round2 (0.25 : ℚ) := round2_mono hpre
  have h025 : round2 (0.25 : ℚ) = 0.25 := by norm_num [round2, round_eq]
  rw [hkey] at hthr
  linarith

/-- Helper: the concrete attendee-plus-customer email scores 0.65. -/
theorem scoreKey_exEmailAttendeeCustomer :
    scoreKey (annotateEmail exMeetingQ4 (some (enc "acme")) none
      exEmailAttendeeCustomer) = 13/20 := by
  have hattT : attendeeMatchB exMeetingQ4 exEmailAttendeeCustomer = true := by decide
  have hcustT : customerMatchB (effectiveCustomerName (some (enc "acme")) none)
      (emailText exEmailAttendeeCustomer) = true := by decide
  have hkws : extractMeetingContextKeywords exMeetingQ4 = [enc "review"] := by decide
  have hcount : contextCount [enc "review"] (emailText exEmailAttendeeCustomer) = 0 := by
    decide
  have hdate : exEmailAttendeeCustomer.date = [] := by decide
  have hrecF3 : isRecent [] 3 = false := by decide
  have hrecF7 : isRecent [] 7 = false := by decide
  have hpenF : penaltyB (effectiveCustomerName (some (enc "acme")) none) true true
      (contextMatchB [enc "review"] (emailText exEmailAttendeeCustomer)) = false := by
    decide
  simp only [scoreKey, annotateEmail, preScore, attendeeContribution,
    customerContribution, contextContribution, recencyContribution, hattT, hcustT,
    hkws, hcount, hdate, hrecF3, hrecF7, hpenF, if_true, if_false, ite_true,
    ite_false, Option.getD_some, Bool.false_eq_true, lt_self_iff_false, and_false,
    ne_eq]
  norm_num [round2, round_eq]

/-- Helper: that email survives the scorer's threshold. -/
theorem mem_scoreEmails_exEmailAttendeeCustomer :
    annotateEmail exMeetingQ4 (some (enc "acme")) none exEmailAttendeeCustomer ∈
      scoreEmails [exEmailAttendeeCustomer] exMeetingQ4 (some (enc "acme")) none := by
  rw [scoreEmails_singleton, scoreKey_exEmailAttendeeCustomer, if_pos (by norm_num)]
  exact List.mem_singleton.mpr rfl

/-- Witness for C10: a surviving email from an attendee, scored with a
customer name in effect, satisfies the invariant. -/
theorem penalized_never_reaches_threshold_witness :
    (annotateEmail exMeetingQ4 (some (enc "acme")) none
        exEmailAttendeeCustomer).attendeeMatch = some true ∨
      ((annotateEmail exMeetingQ4 (some (enc "acme")) none
        exEmailAttendeeCustomer).customerMatch = some true ∧
       (annotateEmail exMeetingQ4 (some (enc "acme")) none
        exEmailAttendeeCustomer).contextMatch = some true) :=
  penalized_never_reaches_threshold [exEmailAttendeeCustomer] exMeetingQ4
    (some (enc "acme")) none (by decide) _ mem_scoreEmails_exEmailAttendeeCustomer

/-- Helper: inserting an element into a list leaves the sublist of any fixed
score value `v` unchanged except for the inserted element, which lands after
every stored element of larger score and before none of equal score — so
relative order within one score class is preserved. -/
theorem filter_key_orderedInsert (v : ℚ) (a : Email) (l : List Email) :
    (l.orderedInsert scoreGE a).filter (fun e => decide (scoreKey e = v)) =
      if scoreKey a = v then
        a :: l.filter (fun e => decide (scoreKey e = v))
      else l.filter (fun e => decide (scoreKey e = v)) := by
  induction l with
  | nil =>
    by_cases h : scoreKey a = v <;> simp [List.orderedInsert, List.filter, h]
  | cons b t ih =>
    by_cases hab : scoreGE a b
    · by_cases h : scoreKey a = v <;>
        simp [List.orderedInsert, hab, List.filter, h]
    · have hbv : scoreKey a < scoreKey b := by
        have := lt_of_not_le hab
        exact this
      by_cases h : scoreKey a = v
      · have hbne : ¬(scoreKey b = v) := by
          intro hb
          rw [h] at hbv
          rw [hb] at hbv
          exact lt_irrefl v hbv
        simp [List.orderedInsert, hab, List.filter, ih, h, hbne]
      · by_cases hb : scoreKey b = v <;>
          simp [List.orderedInsert, hab, List.filter, ih, h, hb]

/-- Helper: the stable insertion sort preserves the relative order of the
candidates within each score class. -/
theorem filter_key_insertionSort (v : ℚ) (l : List Email) :
    (l.insertionSort scoreGE).filter (fun e => decide (scoreKey e = v)) =
      l.filter (fun e => decide (scoreKey e = v)) := by
  induction l with
  | nil => rfl
  | cons a t ih =>
    rw [List.insertionSort, filter_key_orderedInsert, ih]
    by_cases h : scoreKey a = v <;> simp [List.filter, h]

/-- C3: every scored result lies in [0.40, 1.00], the output is sorted
non-increasing by rounded score, and candidates of equal score keep their
original retrieval order (the output's score class of any value `v` equals
the annotated input's class, kept exactly when `v` clears the threshold). -/
theorem scorer_threshold_sorted_stable (emails : List Email) (m : Meeting)
    (cn cd : Option Str) :
    (∀ e ∈ scoreEmails emails m cn cd,
        (0.4 : ℚ) ≤ scoreKey e ∧ scoreKey e ≤ 1) ∧
    (scoreEmails emails m cn cd).Sorted scoreGE ∧
    (∀ v : ℚ, (scoreEmails emails m cn cd).filter (fun e => decide (scoreKey e = v)) =
      (emails.map (annotateEmail m cn cd)).filter
        (fun e => decide (scoreKey e = v) && decide ((0.4 : ℚ) ≤ v))) := by
  refine ⟨?_, ?_, ?_⟩
  · intro e he
    unfold scoreEmails at he
    have h1 := List.mem_filter.mp he
    have h2 : e ∈ emails.map (annotateEmail m cn cd) :=
      (List.mem_insertionSort scoreGE).mp h1.1
    obtain ⟨e0, _, rfl⟩ := List.mem_map.mp h2
    refine ⟨of_decide_eq_true h1.2, ?_⟩
    have hkey : scoreKey (annotateEmail m cn cd e0) = round2 (preScore m cn cd e0) := rfl
    have hub : round2 (preScore m cn cd e0) ≤ round2 (1 : ℚ) :=
      round2_mono (preScore_le_one m cn cd e0)
    have h1r : round2 (1 : ℚ) = 1 := by norm_num [round2, round_eq]
    rw [hkey]
    linarith
  · unfold scoreEmails
    exact (List.sorted_insertionSort scoreGE _).filter _
  · intro v
    unfold scoreEmails
    by_cases hv : (0.4 : ℚ) ≤ v
    · have hd : decide ((0.4 : ℚ) ≤ v) = true := decide_eq_true hv
      rw [List.filter_filter]
      have hcong : ∀ a ∈ (emails.map (annotateEmail m cn cd)).insertionSort scoreGE,
          (decide (scoreKey a = v) && decide ((0.4 : ℚ) ≤ scoreKey a)) =
          (decide (scoreKey a = v) && decide ((0.4 : ℚ) ≤ v)) := by
        intro a _
        by_cases ha : scoreKey a = v
        · rw [ha]
        · simp [ha]
      rw [List.filter_congr hcong]
      simp only [hd, Bool.and_true]
      rw [filter_key_insertionSort]
    · have hd : decide ((0.4 : ℚ) ≤ v) = false := decide_eq_false hv
      simp only [hd, Bool.and_false, List.filter_false]
      refine List.filter_eq_nil_iff.mpr ?_
      intro a ha
      have h1 := List.mem_filter.mp ha
      have hth : (0.4 : ℚ) ≤ scoreKey a := of_decide_eq_true h1.2
      simp only [decide_eq_true_eq]
      intro hav
      rw [hav] at hth
      exact hv hth

/-- Witness for C3: the bounds evaluated on a concrete surviving result. -/
theorem scorer_threshold_sorted_stable_witness :
    (0.4 : ℚ) ≤ scoreKey (annotateEmail exMeetingQ4 (some (enc "acme")) none
      exEmailAttendeeCustomer) ∧
    scoreKey (annotateEmail exMeetingQ4 (some (enc "acme")) none
      exEmailAttendeeCustomer) ≤ 1 :=
  (scorer_threshold_sorted_stable [exEmailAttendeeCustomer] exMeetingQ4
    (some (enc "acme")) none).1 _ mem_scoreEmails_exEmailAttendeeCustomer

/-- Helper: ASCII lower-casing is idempotent on code points. -/
theorem lowerCode_idem (c : Nat) : lowerCode (lowerCode c) = lowerCode c := by
  unfold lowerCode
  by_cases h : 65 ≤ c ∧ c ≤ 90
  · rw [if_pos h, if_neg (by omega)]
  · rw [if_neg h, if_neg h]

/-- Helper: every character of a lower-cased string is fixed by lower-casing. -/
theorem mem_lowerStr_stable (s : Str) (c : Nat) (hc : c ∈ lowerStr s) :
    lowerCode c = c := by
  obtain ⟨c', _, rfl⟩ := List.mem_map.mp (by simpa [lowerStr] using hc)
  exact lowerCode_idem c'

/-- Helper: a string of lower-stable characters is fixed by lower-casing. -/
theorem lowerStr_stable_of_all (w : Str) (h : ∀ c ∈ w, lowerCode c = c) :
    lowerStr w = w := by
  unfold lowerStr
  induction w with
  | nil => rfl
  | cons c t ih =>
    rw [List.map_cons, h c (List.mem_cons_self c t),
      ih (fun d hd => h d (List.mem_cons_of_mem c hd))]

/-- Helper: lower-casing fixes a space-join of lower-stable tokens. -/
theorem lowerStr_joinStr_space (l : List Str) (h : ∀ w ∈ l, lowerStr w = w) :
    lowerStr (joinStr [32] l) = joinStr [32] l := by
  induction l with
  | nil => rfl
  | cons t rest ih =>
    cases rest with
    | nil => exact h t (List.mem_cons_self t [])
    | cons u rest' =>
      have ht := h t (List.mem_cons_self t (u :: rest'))
      have hrest := ih (fun w hw => h w (List.mem_cons_of_mem t hw))
      simp only [joinStr] at hrest ⊢
      unfold lowerStr at ht hrest ⊢
      rw [List.map_append, List.map_append, ht, hrest]
      rfl

/-- Helper: the tokenizer consumes a leading all-word run into its
accumulator. -/
theorem wordsAux_append_word (t : Str) (hw : ∀ c ∈ t, isWordCode c = true) :
    ∀ (acc s : Str), wordsAux acc (t ++ s) = wordsAux (t.reverse ++ acc) s := by
  induction t with
  | nil => intro acc s; rfl
  | cons c t' ih =>
    intro acc s
    have hc : isWordCode c = true := hw c (List.mem_cons_self c t')
    have hw' : ∀ d ∈ t', isWordCode d = true :=
      fun d hd => hw d (List.mem_cons_of_mem c hd)
    simp only [List.cons_append, wordsAux, hc, if_true, ite_true]
    show wordsAux (c :: acc) (t' ++ s) = wordsAux ((c :: t').reverse ++ acc) s
    rw [ih hw' (c :: acc)]
    congr 1
    simp [List.reverse_cons, List.append_assoc]

/-- Helper: a nonempty all-word string is one token. -/
theorem words_token (t : Str) (ht : t ≠ []) (hw : ∀ c ∈ t, isWordCode c = true) :
    words t = [t] := by
  unfold words
  have h := wordsAux_append_word t hw [] []
  rw [List.append_nil, List.append_nil] at h
  rw [h]
  simp [wordsAux, ht]

/-- Helper: a nonempty all-word token followed by a space tokenizes as that
token followed by the tokens of the remainder. -/
theorem words_token_space (t : Str) (ht : t ≠ []) (hw : ∀ c ∈ t, isWordCode c = true)
    (s : Str) : words (t ++ 32 :: s) = t :: words s := by
  unfold words
  rw [wordsAux_append_word t hw [] (32 :: s), List.append_nil]
  have h32 : isWordCode 32 = false := by decide
  simp [wordsAux, h32, ht]

/-- Helper: tokenizing a space-join of nonempty all-word tokens recovers
exactly those tokens. -/
theorem words_join (ks : List Str)
    (h : ∀ w ∈ ks, w ≠ [] ∧ ∀ c ∈ w, isWordCode c = true) :
    words (joinStr [32] ks) = ks := by
  induction ks with
  | nil => rfl
  | cons t rest ih =>
    cases rest with
    | nil =>
      simp only [joinStr]
      exact words_token t (h t (List.mem_cons_self t [])).1 (h t (List.mem_cons_self t [])).2
    | cons u rest' =>
      have hj : joinStr [32] (t :: u :: rest') = t ++ 32 :: joinStr [32] (u :: rest') := by
        simp [joinStr]
      rw [hj, words_token_space t (h t (List.mem_cons_self t (u :: rest'))).1
        (h t (List.mem_cons_self t (u :: rest'))).2,
        ih (fun w hw => h w (List.mem_cons_of_mem t hw))]

/-- Helper: every token produced by the tokenizer is a nonempty run of word
characters drawn from the accumulator or the input. -/
theorem wordsAux_sound (s : Str) : ∀ (acc : Str), (∀ c ∈ acc, isWordCode c = true) →
    ∀ w ∈ wordsAux acc s, w ≠ [] ∧ ∀ c ∈ w, isWordCode c = true ∧ (c ∈ acc ∨ c ∈ s) := by
  induction s with
  | nil =>
    intro acc hacc w hw
    by_cases h : acc = []
    · simp [wordsAux, h] at hw
    · simp only [wordsAux, if_neg h] at hw
      rw [List.mem_singleton] at hw
      subst hw
      refine ⟨by simp [h], fun c hc => ?_⟩
      rw [List.mem_reverse] at hc
      exact ⟨hacc c hc, Or.inl hc⟩
  | cons b rest ih =>
    intro acc hacc w hw
    by_cases hb : isWordCode b = true
    · rw [show wordsAux acc (b :: rest) = wordsAux (b :: acc) rest by
        simp [wordsAux, hb]] at hw
      have hacc' : ∀ c ∈ b :: acc, isWordCode c = true := by
        intro c hc
        rcases List.mem_cons.mp hc with h2 | h2
        · subst h2; exact hb
        · exact hacc c h2
      obtain ⟨hne, hall⟩ := ih (b :: acc) hacc' w hw
      refine ⟨hne, fun c hc => ⟨(hall c hc).1, ?_⟩⟩
      rcases (hall c hc).2 with h2 | h2
      · rcases List.mem_cons.mp h2 with h3 | h3
        · subst h3; exact Or.inr (List.mem_cons_self _ _)
        · exact Or.inl h3
      · exact Or.inr (List.mem_cons_of_mem _ h2)
    · by_cases ha : acc = []
      · rw [show wordsAux acc (b :: rest) = wordsAux [] rest by
          simp [wordsAux, hb, ha]] at hw
        obtain ⟨hne, hall⟩ := ih [] (by simp) w hw
        exact ⟨hne, fun c hc => ⟨(hall c hc).1,
          Or.inr (List.mem_cons_of_mem _ ((hall c hc).2.resolve_left (by simp)))⟩⟩
      · rw [show wordsAux acc (b :: rest) = acc.reverse :: wordsAux [] rest by
          simp [wordsAux, hb, ha]] at hw
        rcases List.mem_cons.mp hw with h2 | h2
        · subst h2
          refine ⟨by simp [ha], fun c hc => ?_⟩
          rw [List.mem_reverse] at hc
          exact ⟨hacc c hc, Or.inl hc⟩
        · obtain ⟨hne, hall⟩ := ih [] (by simp) w h2
          exact ⟨hne, fun c hc => ⟨(hall c hc).1,
            Or.inr (List.mem_cons_of_mem _ ((hall c hc).2.resolve_left (by simp)))⟩⟩

/-- Helper: tokens of `words s` are nonempty all-word runs of characters
of `s`. -/
theorem words_sound (s : Str) :
    ∀ w ∈ words s, w ≠ [] ∧ ∀ c ∈ w, isWordCode c = true ∧ c ∈ s := by
  intro w hw
  obtain ⟨hne, hall⟩ := wordsAux_sound s [] (by simp) w hw
  exact ⟨hne, fun c hc => ⟨(hall c hc).1, (hall c hc).2.resolve_left (by simp)⟩⟩

/-- C9: keyword extraction in search mode returns at most 4 tokens, and for
either mode, re-extracting from the space-joined output returns the same
ordered list (idempotence). -/
theorem extract_capped_idempotent :
    (∀ text : Str, (extractKeywords text false).length ≤ 4) ∧
    (∀ (text : Str) (mode : Bool),
      extractKeywords (joinStr [32] (extractKeywords text mode)) mode =
        extractKeywords text mode) := by
  constructor
  · intro text
    unfold extractKeywords
    exact List.length_take_le 4 _
  · intro text mode
    have hmem : ∀ w ∈ extractKeywords text mode, w ∈ words (lowerStr text) := by
      intro w hw
      exact List.mem_of_mem_filter (List.mem_of_mem_take hw)
    have hall : ∀ w ∈ extractKeywords text mode,
        w ≠ [] ∧ ∀ c ∈ w, isWordCode c = true := by
      intro w hw
      obtain ⟨hne, h2⟩ := words_sound (lowerStr text) w (hmem w hw)
      exact ⟨hne, fun c hc => (h2 c hc).1⟩
    have hlow : ∀ w ∈ extractKeywords text mode, lowerStr w = w := by
      intro w hw
      refine lowerStr_stable_of_all w (fun c hc => ?_)
      obtain ⟨_, h2⟩ := words_sound (lowerStr text) w (hmem w hw)
      exact mem_lowerStr_stable text c (h2 c hc).2
    have hkeep : ∀ w ∈ extractKeywords text mode, keywordKeep mode w = true := by
      intro w hw
      exact (List.mem_filter.mp (List.mem_of_mem_take hw)).2
    have hlen : (extractKeywords text mode).length ≤ 4 := by
      unfold extractKeywords
      exact List.length_take_le 4 _
    conv_lhs => rw [extractKeywords]
    rw [lowerStr_joinStr_space _ hlow, words_join _ hall,
      List.filter_eq_self.mpr hkeep, List.take_of_length_le hlen]

end MeetingPrep
